import Mathlib

/-
Verification of tweets-as-datasets (src/tad_common.py, src/tsm.py, src/ttm.py)
against its natural-language specification.

Python strings are modelled by Lean `String`, with the handful of `str`
methods the repository uses (split on a one-character separator, strip,
lower, slicing off the first character) re-implemented over the underlying
character list so that concrete evaluations reduce in the kernel.
Python dicts are modelled as insertion-ordered association lists
(`Dict α`), with `dictInsert` mirroring `d[k] = v` (overwrite in place,
append when fresh) and `dictUpdate` mirroring `d.update(other)`.
Python exceptions the code can raise or catch are modelled by `PyErr`
and `Except PyErr`.
-/

namespace TAD

/-! ### Python string primitives -/

/-- Python's whitespace set, as used by `str.strip` and friends. -/
def pyIsSpace (c : Char) : Bool :=
  c == ' ' || c == '\t' || c == '\n' || c == '\r' || c == '\x0b' || c == '\x0c'

/-- Split a character list on a one-character separator, Python
`str.split(sep)` semantics: `"".split(sep) == [""]`, separators at the
ends produce empty fields. -/
def splitCh (sep : Char) : List Char → List (List Char)
  | [] => [[]]
  | c :: cs =>
    let r := splitCh sep cs
    if c = sep then [] :: r
    else
      match r with
      | [] => [[c]]
      | g :: gs => (c :: g) :: gs

/-- Python `s.split(sep)` for a one-character `sep` (the only form the
repository uses: sep is one of `=`, `,`, `&`, and a single space). -/
def pySplit (sep : Char) (s : String) : List String :=
  (splitCh sep s.data).map String.mk

/-- Python `s.strip()`: remove leading and trailing whitespace. -/
def pyStrip (s : String) : String :=
  String.mk (((s.data.dropWhile pyIsSpace).reverse.dropWhile pyIsSpace).reverse)

/-- ASCII lowering of one character, as Python `str.lower` acts on the
ASCII letters the credential keys consist of. -/
def pyLowerChar (c : Char) : Char :=
  if 65 ≤ c.toNat ∧ c.toNat ≤ 90 then Char.ofNat (c.toNat + 32) else c

/-- Python `s.lower()`. -/
def pyLower (s : String) : String := String.mk (s.data.map pyLowerChar)

/-- Python `s[1:]`: drop the first character. -/
def pyDrop1 (s : String) : String := String.mk (s.data.drop 1)

/-! ### Python dicts as insertion-ordered association lists -/

/-- A Python dict with string keys, as an insertion-ordered association
list. -/
abbrev Dict (α : Type) : Type := List (String × α)

/-- Python `d[k]` lookup (first, i.e. unique, occurrence of the key). -/
def dictLookup {α : Type} : Dict α → String → Option α
  | [], _ => none
  | p :: ps, k => if p.1 = k then some p.2 else dictLookup ps k

/-- Python `d[k] = v`: overwrite the entry in place when the key is
present, append a fresh entry otherwise. -/
def dictInsert {α : Type} (d : Dict α) (k : String) (v : α) : Dict α :=
  if d.any (fun p => p.1 = k) then d.map (fun p => if p.1 = k then (k, v) else p)
  else d ++ [(k, v)]

/-- Python `d.update(other)`: write every entry of `other` into `d`, in
`other`'s order. -/
def dictUpdate {α : Type} (d other : Dict α) : Dict α :=
  other.foldl (fun acc p => dictInsert acc p.1 p.2) d

/-- Left-biased choice on `Option`, used to state merge results. -/
def optOr {α : Type} : Option α → Option α → Option α
  | some v, _ => some v
  | none, b => b

/-! ### Data model (tad_common.py) -/

/-- A Python exception the modelled code can raise or catch. -/
inductive PyErr : Type where
  | keyError : PyErr
  | valueError : PyErr
deriving DecidableEq

/-- Tweet (tad_common.py line 85): identifier and text, both strings. -/
structure Tweet : Type where
  identifier : String
  text : String
deriving DecidableEq

/-- The per-identifier entry written to the store: the Python dict
`{'text': twt.text}` of tad_common.py line 79. -/
structure TweetEntry : Type where
  text : String
deriving DecidableEq

/-- LANG (tad_common.py line 26). -/
def LANG : String := "en"

/-- JSONStorage._tweets_to_dict (tad_common.py lines 72-82), value
semantics: copy the previous dict, build a dict keyed by identifier from
the incoming tweets, and update the copy with it. -/
def tweets_to_dict (tweets : List Tweet) (prev_tweets_dict : Dict TweetEntry) :
    Dict TweetEntry :=
  let merged_tweets_dict := prev_tweets_dict
  let tweets_dict :=
    tweets.foldl (fun d twt => dictInsert d twt.identifier ⟨twt.text⟩) []
  dictUpdate merged_tweets_dict tweets_dict

/-- JSONStorage.store (tad_common.py lines 56-70) at the level of the
persisted mapping: `prev` is the parsed content of the store file when it
exists (`none` when it does not, giving the empty dict of line 62), and
the result is the mapping serialized back to the file. -/
def store (prev : Option (Dict TweetEntry)) (tweets : List Tweet) : Dict TweetEntry :=
  let prev_tweets : Dict TweetEntry :=
    match prev with
    | some d => d
    | none => []
  tweets_to_dict tweets prev_tweets

/-- The entry a batch of tweets determines for identifier `k`: the text of
the last tweet in the batch carrying that identifier, if any. -/
def lastEntry (tweets : List Tweet) (k : String) : Option TweetEntry :=
  tweets.foldl (fun acc twt => if twt.identifier = k then some ⟨twt.text⟩ else acc) none

/-! ### Dictionary lemmas -/

theorem optOr_none {α : Type} (a : Option α) : optOr a none = a := by
  cases a <;> rfl

theorem optOr_assoc {α : Type} (a b c : Option α) :
    optOr (optOr a b) c = optOr a (optOr b c) := by
  cases a <;> cases b <;> rfl

theorem optOr_ite_some {α : Type} (p : Prop) [Decidable p] (v : α) (b : Option α) :
    optOr (if p then some v else none) b = if p then some v else b := by
  by_cases h : p <;> simp [optOr, h]

theorem dictLookup_map_overwrite {α : Type} (d : Dict α) (k k' : String) (v : α) :
    dictLookup (d.map (fun p => if p.1 = k then (k, v) else p)) k' =
      if k = k' then (dictLookup d k).map (fun _ => v) else dictLookup d k' := by
  induction d with
  | nil => by_cases h : k = k' <;> simp [dictLookup, h]
  | cons p ps ih =>
    by_cases hp : p.1 = k <;> by_cases hk : k = k'
    · subst hk; simp [dictLookup, hp, ih]
    · simp [dictLookup, hp, hk, ih]
    · subst hk; simp [dictLookup, hp, ih]
    · simp [dictLookup, hp, hk, ih]

theorem dictLookup_append_single {α : Type} (d : Dict α) (k k' : String) (v : α) :
    dictLookup (d ++ [(k, v)]) k' =
      optOr (dictLookup d k') (if k = k' then some v else none) := by
  induction d with
  | nil => simp [dictLookup, optOr]
  | cons p ps ih =>
    by_cases hp : p.1 = k' <;> simp [dictLookup, hp, ih, optOr]

theorem dictLookup_isSome_of_any {α : Type} (d : Dict α) (k : String) :
    d.any (fun p => p.1 = k) = true ↔ (dictLookup d k).isSome = true := by
  induction d with
  | nil => simp [dictLookup]
  | cons p ps ih =>
    by_cases hp : p.1 = k <;> simp [dictLookup, hp, ih]

theorem dictLookup_dictInsert {α : Type} (d : Dict α) (k k' : String) (v : α) :
    dictLookup (dictInsert d k v) k' =
      if k = k' then some v else dictLookup d k' := by
  unfold dictInsert
  by_cases hany : d.any (fun p => p.1 = k) = true
  · rw [if_pos hany, dictLookup_map_overwrite]
    by_cases hk : k = k'
    · rw [if_pos hk, if_pos hk]
      rcases Option.isSome_iff_exists.mp ((dictLookup_isSome_of_any d k).mp hany) with ⟨w, hw⟩
      simp [hw]
    · rw [if_neg hk, if_neg hk]
  · rw [if_neg hany, dictLookup_append_single]
    by_cases hk : k = k'
    · subst hk
      have : dictLookup d k = none := by
        cases hl : dictLookup d k with
        | none => rfl
        | some w =>
          exact absurd ((dictLookup_isSome_of_any d k).mpr (by simp [hl])) hany
      simp [this, optOr]
    · simp [hk, optOr_none]

theorem foldl_optStep_init {α β : Type} (f : β → String) (g : β → α) (k : String)
    (l : List β) (a : Option α) :
    l.foldl (fun acc x => if f x = k then some (g x) else acc) a =
      optOr (l.foldl (fun acc x => if f x = k then some (g x) else acc) none) a := by
  induction l generalizing a with
  | nil => simp [optOr]
  | cons x l ih =>
    simp only [List.foldl_cons]
    rw [ih, ih (if f x = k then some (g x) else none)]
    by_cases hx : f x = k
    · simp only [hx, if_true]
      cases l.foldl (fun acc x => if f x = k then some (g x) else acc) none <;> rfl
    · simp only [hx, if_false]
      cases l.foldl (fun acc x => if f x = k then some (g x) else acc) none <;> rfl

theorem dictLookup_foldl_dictInsert {α β : Type} (f : β → String) (g : β → α)
    (l : List β) (d : Dict α) (k : String) :
    dictLookup (l.foldl (fun acc x => dictInsert acc (f x) (g x)) d) k =
      optOr (l.foldl (fun acc x => if f x = k then some (g x) else acc) none)
        (dictLookup d k) := by
  induction l generalizing d with
  | nil => simp [optOr]
  | cons x l ih =>
    simp only [List.foldl_cons]
    rw [ih, dictLookup_dictInsert,
      foldl_optStep_init f g k l (if f x = k then some (g x) else none),
      optOr_assoc, optOr_ite_some]

/-- First-order specialization of `foldl_optStep_init` to pair steps. -/
theorem foldl_pairStep_init {α : Type} (k : String) (ps : Dict α) (a : Option α) :
    ps.foldl (fun acc p => if p.1 = k then some p.2 else acc) a =
      optOr (ps.foldl (fun acc p => if p.1 = k then some p.2 else acc) none) a :=
  foldl_optStep_init (fun p => p.1) (fun p => p.2) k ps a

/-- First-order specialization of `dictLookup_foldl_dictInsert` to the
pair-by-pair writes performed by `dictUpdate`. -/
theorem dictLookup_foldl_pairs {α : Type} (ps : Dict α) (d : Dict α) (k : String) :
    dictLookup (ps.foldl (fun acc p => dictInsert acc p.1 p.2) d) k =
      optOr (ps.foldl (fun acc p => if p.1 = k then some p.2 else acc) none)
        (dictLookup d k) :=
  dictLookup_foldl_dictInsert (fun p => p.1) (fun p => p.2) ps d k

/-- First-order specialization of `dictLookup_foldl_dictInsert` to the
tweet-by-tweet writes performed by `_tweets_to_dict`. -/
theorem dictLookup_foldl_tweets (tweets : List Tweet) (d : Dict TweetEntry)
    (k : String) :
    dictLookup (tweets.foldl (fun d twt => dictInsert d twt.identifier ⟨twt.text⟩) d) k =
      optOr
        (tweets.foldl
          (fun acc twt => if twt.identifier = k then some ⟨twt.text⟩ else acc) none)
        (dictLookup d k) :=
  dictLookup_foldl_dictInsert (fun twt => twt.identifier)
    (fun twt => (⟨twt.text⟩ : TweetEntry)) tweets d k

/-- Keys of the dict built from a tweet batch are recovered by rightmost
match over the batch. -/
theorem dictLookup_tweetsDict (tweets : List Tweet) (k : String) :
    dictLookup
        (tweets.foldl (fun d twt => dictInsert d twt.identifier ⟨twt.text⟩) []) k =
      lastEntry tweets k := by
  rw [dictLookup_foldl_tweets]
  simp [dictLookup, optOr_none, lastEntry]

/-- Keys built by `dictInsert` from a key-unique dict stay key-unique. -/
theorem keysNodup_dictInsert {α : Type} (d : Dict α) (k : String) (v : α)
    (h : (d.map Prod.fst).Nodup) : ((dictInsert d k v).map Prod.fst).Nodup := by
  unfold dictInsert
  by_cases hany : d.any (fun p => p.1 = k) = true
  · rw [if_pos hany]
    have : (d.map (fun p => if p.1 = k then (k, v) else p)).map Prod.fst =
        d.map Prod.fst := by
      rw [List.map_map]
      apply List.map_congr_left
      intro p _
      by_cases hp : p.1 = k <;> simp [hp]
    rw [this]
    exact h
  · rw [if_neg hany]
    have hmem : k ∉ d.map Prod.fst := by
      intro hk
      rcases List.mem_map.mp hk with ⟨p, hpmem, hpk⟩
      exact hany (List.any_eq_true.mpr ⟨p, hpmem, by simp [hpk]⟩)
    simp only [List.map_append, List.map_cons, List.map_nil]
    rw [List.nodup_append]
    exact ⟨h, List.nodup_singleton k, by
      intro a ha hb
      simp only [List.mem_singleton] at hb
      exact hmem (hb ▸ ha)⟩

theorem keysNodup_tweetsDict (tweets : List Tweet) :
    ((tweets.foldl
      (fun d twt => dictInsert d twt.identifier (⟨twt.text⟩ : TweetEntry)) []).map
      Prod.fst).Nodup := by
  suffices h : ∀ d : Dict TweetEntry, (d.map Prod.fst).Nodup →
      ((tweets.foldl
        (fun d twt => dictInsert d twt.identifier (⟨twt.text⟩ : TweetEntry)) d).map
        Prod.fst).Nodup by
    exact h [] (by simp)
  induction tweets with
  | nil => intro d hd; simpa using hd
  | cons t ts ih =>
    intro d hd
    exact ih _ (keysNodup_dictInsert d t.identifier ⟨t.text⟩ hd)

theorem dictLookup_eq_none_of_not_mem_keys {α : Type} (d : Dict α) (k : String)
    (h : k ∉ d.map Prod.fst) : dictLookup d k = none := by
  induction d with
  | nil => rfl
  | cons p ps ih =>
    simp only [List.map_cons, List.mem_cons] at h
    push_neg at h
    simp [dictLookup, fun hp : p.1 = k => h.1 hp.symm, ih h.2]
    intro hp
    exact absurd hp.symm h.1

/-- On a key-unique dict, rightmost match agrees with `dictLookup`. -/
theorem rightmost_eq_dictLookup {α : Type} (d : Dict α) (k : String)
    (h : (d.map Prod.fst).Nodup) :
    d.foldl (fun acc p => if p.1 = k then some p.2 else acc) none = dictLookup d k := by
  induction d with
  | nil => rfl
  | cons p ps ih =>
    simp only [List.map_cons, List.nodup_cons] at h
    simp only [List.foldl_cons]
    rw [foldl_pairStep_init k ps (if p.1 = k then some p.2 else none), ih h.2]
    by_cases hp : p.1 = k
    · have : dictLookup ps k = none :=
        dictLookup_eq_none_of_not_mem_keys ps k (hp ▸ h.1)
      simp [dictLookup, hp, this, optOr]
    · simp [dictLookup, hp, optOr_none]

/-- Lookup in the merged dict: the batch wins where it has the key,
otherwise the previous store answers. -/
theorem dictLookup_tweets_to_dict (tweets : List Tweet) (prev : Dict TweetEntry)
    (k : String) :
    dictLookup (tweets_to_dict tweets prev) k =
      optOr (lastEntry tweets k) (dictLookup prev k) := by
  show dictLookup
      ((tweets.foldl (fun d twt => dictInsert d twt.identifier ⟨twt.text⟩) []).foldl
        (fun acc p => dictInsert acc p.1 p.2) prev) k = _
  rw [dictLookup_foldl_pairs]
  rw [rightmost_eq_dictLookup _ k (keysNodup_tweetsDict tweets)]
  rw [dictLookup_tweetsDict]

/-- C1: for every pre-existing on-disk mapping M and batch B, the mapping
persisted by store is the union of M and B keyed by identifier: where B
carries an identifier the stored entry is the text B determines for it
(new entries win on conflict), every key of M absent from B keeps its
original entry, and no key of M is ever removed. -/
theorem store_is_union (M : Dict TweetEntry) (B : List Tweet) (k : String) :
    dictLookup (store (some M) B) k = optOr (lastEntry B k) (dictLookup M k) ∧
    ((dictLookup M k).isSome = true → (dictLookup (store (some M) B) k).isSome = true) := by
  have hmain : dictLookup (store (some M) B) k =
      optOr (lastEntry B k) (dictLookup M k) := dictLookup_tweets_to_dict B M k
  refine ⟨hmain, fun hM => ?_⟩
  rw [hmain]
  cases hl : lastEntry B k with
  | none => simpa [optOr, hl] using hM
  | some w => simp [optOr]

/-- Witness for C1 at a concrete store and batch: identifier 1 is
overwritten by the batch, identifier 2 survives untouched. -/
theorem store_is_union_witness :
    dictLookup (store (some [(("1"), ⟨("old")⟩), (("2"), ⟨("keep")⟩)])
        [⟨("1"), ("new")⟩, ⟨("3"), ("three")⟩]) ("1") = some ⟨("new")⟩ ∧
    dictLookup (store (some [(("1"), ⟨("old")⟩), (("2"), ⟨("keep")⟩)])
        [⟨("1"), ("new")⟩, ⟨("3"), ("three")⟩]) ("2") = some ⟨("keep")⟩ := by
  have h1 := (store_is_union [(("1"), ⟨("old")⟩), (("2"), ⟨("keep")⟩)]
    [⟨("1"), ("new")⟩, ⟨("3"), ("three")⟩] ("1")).1
  have h2 := (store_is_union [(("1"), ⟨("old")⟩), (("2"), ⟨("keep")⟩)]
    [⟨("1"), ("new")⟩, ⟨("3"), ("three")⟩] ("2")).1
  rw [h1, h2]
  constructor <;> decide

/-! ### Raw statuses and record decoding -/

/-- A raw API status as the two collectors observe it: the `id` field is
always present (an integer the decoder stringifies), the `text` field may
be absent (`none`). -/
structure Status : Type where
  id : Nat
  text : Option String
deriving DecidableEq

/-- Tweet.__init__ (tad_common.py lines 94-101): identifier is
`str(status['id'])`, text is `status['text']`; subscripting a status that
lacks the `text` field raises KeyError. -/
def Tweet.ofStatus (status : Status) : Except PyErr Tweet :=
  match status.text with
  | some t => Except.ok ⟨toString status.id, t⟩
  | none => Except.error PyErr.keyError

/-- The records a list of statuses determines: one per text-carrying
status, in order. -/
def statusRecords (statuses : List Status) : List Tweet :=
  statuses.filterMap (fun s => s.text.map (fun t => (⟨toString s.id, t⟩ : Tweet)))

theorem statusRecords_nil : statusRecords [] = [] := rfl

theorem statusRecords_cons_some (s : Status) (t : String) (l : List Status)
    (h : s.text = some t) :
    statusRecords (s :: l) = ⟨toString s.id, t⟩ :: statusRecords l := by
  simp [statusRecords, h]

theorem statusRecords_length (l : List Status)
    (h : ∀ s ∈ l, s.text.isSome = true) : (statusRecords l).length = l.length := by
  induction l with
  | nil => rfl
  | cons s l ih =>
    obtain ⟨t, ht⟩ := Option.isSome_iff_exists.mp (h s (by simp))
    rw [statusRecords_cons_some s t l ht]
    simp [ih fun x hx => h x (by simp [hx])]

/-! ### Stream miner (tsm.py) -/

/-- One event at the stream consumption point (tsm.py line 82): either
the next status arrives, or a keyboard interrupt is raised while waiting
for it. -/
inductive StreamEvent : Type where
  | status : Status → StreamEvent
  | interrupt : StreamEvent
deriving DecidableEq

/-- Outcome of StreamMiner._get_tweets: the accumulated records and how
many events the loop consumed from the feed. -/
structure StreamResult : Type where
  tweets : List Tweet
  consumed : Nat
deriving DecidableEq

/-- StreamMiner.__init__ (tsm.py line 70): `self.limit = limit if
limit > 0 else -1`, the sentinel -1 meaning unbounded. -/
def mkLimit (limit : Int) : Int := if limit > 0 then limit else -1

/-- StreamMiner._get_tweets (tsm.py lines 72-91): consume statuses while
they carry text and the count differs from the limit; on a content-less
status or on `count == limit` return immediately; a keyboard interrupt at
the consumption point is caught and the accumulated records kept. The
function is total: no exception escapes it. -/
def streamLoop (limit : Int) : List StreamEvent → Nat → List Tweet → StreamResult
  | [], _, acc => ⟨acc, 0⟩
  | StreamEvent.interrupt :: _, _, acc => ⟨acc, 1⟩
  | StreamEvent.status s :: rest, count, acc =>
    match s.text with
    | some t =>
      if (count : Int) ≠ limit then
        let r := streamLoop limit rest (count + 1) (acc ++ [⟨toString s.id, t⟩])
        ⟨r.tweets, r.consumed + 1⟩
      else ⟨acc, 1⟩
    | none => ⟨acc, 1⟩

/-- StreamMiner._get_tweets entry: count starts at 0, accumulator empty. -/
def StreamMiner_get_tweets (limit : Int) (feed : List StreamEvent) : StreamResult :=
  streamLoop limit feed 0 []

/-- StreamMiner.get_tweets (tsm.py lines 93-97): returns the list
`_get_tweets` accumulated. -/
def get_tweets (limit : Int) (feed : List StreamEvent) : List Tweet :=
  (StreamMiner_get_tweets limit feed).tweets

/-- Running the stream loop through a prefix of text-carrying statuses
whose positions never hit the limit appends exactly their records. -/
theorem streamLoop_textful (limit : Int) (pre : List Status)
    (tail : List StreamEvent) (count : Nat) (acc : List Tweet)
    (htext : ∀ s ∈ pre, s.text.isSome = true)
    (hcount : ∀ i : Nat, i < pre.length → ((count + i : Nat) : Int) ≠ limit) :
    streamLoop limit (pre.map StreamEvent.status ++ tail) count acc =
      ⟨(streamLoop limit tail (count + pre.length) (acc ++ statusRecords pre)).tweets,
       (streamLoop limit tail (count + pre.length)
         (acc ++ statusRecords pre)).consumed + pre.length⟩ := by
  induction pre generalizing count acc with
  | nil => simp [statusRecords]
  | cons s pre ih =>
    obtain ⟨t, ht⟩ := Option.isSome_iff_exists.mp (htext s (by simp))
    have hc0 : ((count : Nat) : Int) ≠ limit := by simpa using hcount 0 (by simp)
    have hstep : streamLoop limit
        ((s :: pre).map StreamEvent.status ++ tail) count acc =
        ⟨(streamLoop limit (pre.map StreamEvent.status ++ tail) (count + 1)
            (acc ++ [⟨toString s.id, t⟩])).tweets,
         (streamLoop limit (pre.map StreamEvent.status ++ tail) (count + 1)
            (acc ++ [⟨toString s.id, t⟩])).consumed + 1⟩ := by
      simp only [List.map_cons, List.cons_append, streamLoop, ht]
      rw [if_pos hc0]
      rfl
    rw [hstep, ih (count + 1) (acc ++ [(⟨toString s.id, t⟩ : Tweet)])
      (fun x hx => htext x (by simp [hx]))
      (fun i hi => by
        have := hcount (i + 1) (by simpa using Nat.succ_lt_succ hi)
        simpa [Nat.add_assoc, Nat.add_comm 1 i] using this)]
    have harg : count + 1 + pre.length = count + (s :: pre).length := by
      simp [List.length_cons]; omega
    have hacc : (acc ++ [(⟨toString s.id, t⟩ : Tweet)]) ++ statusRecords pre =
        acc ++ statusRecords (s :: pre) := by
      rw [statusRecords_cons_some s t pre ht, List.append_assoc, List.singleton_append]
    rw [harg, hacc]
    simp [List.length_cons, Nat.add_assoc]

/-- C5: when the stream collector meets an event carrying no text it
exits the loop at once, returning exactly the records accumulated from
the earlier events; the content-less event contributes nothing and no
later event is consumed. -/
theorem stream_stops_on_textless (limit : Int) (pre : List Status) (st : Status)
    (rest : List StreamEvent)
    (htext : ∀ s ∈ pre, s.text.isSome = true) (hst : st.text = none)
    (hcount : ∀ i : Nat, i < pre.length → ((i : Nat) : Int) ≠ limit) :
    StreamMiner_get_tweets limit
        (pre.map StreamEvent.status ++ StreamEvent.status st :: rest) =
      ⟨statusRecords pre, pre.length + 1⟩ := by
  unfold StreamMiner_get_tweets
  rw [streamLoop_textful limit pre _ 0 [] htext (by simpa using hcount)]
  simp [streamLoop, hst, Nat.add_comm]

/-- Witness for C5: one good event, then a content-less one, then a
further good event that is never consumed. -/
theorem stream_stops_on_textless_witness :
    StreamMiner_get_tweets 5
        ([Status.mk 1 (some ("a"))].map StreamEvent.status ++
          StreamEvent.status (Status.mk 2 none) ::
            [StreamEvent.status (Status.mk 3 (some ("c")))]) =
      ⟨statusRecords [Status.mk 1 (some ("a"))], [Status.mk 1 (some ("a"))].length + 1⟩ :=
  stream_stops_on_textless 5 [Status.mk 1 (some ("a"))] (Status.mk 2 none)
    [StreamEvent.status (Status.mk 3 (some ("c")))] (by decide) rfl (by decide)

/-- C6: a keyboard interrupt raised at the consumption point after K
records have been accumulated is caught — nothing propagates, the loop
stops, and get_tweets returns exactly those K records. In the model the
catch is the `interrupt` arm of `streamLoop`, which returns the
accumulator instead of an error. -/
theorem stream_interrupt_keeps_records (limit : Int) (pre : List Status)
    (rest : List StreamEvent)
    (htext : ∀ s ∈ pre, s.text.isSome = true)
    (hcount : ∀ i : Nat, i < pre.length → ((i : Nat) : Int) ≠ limit) :
    get_tweets limit (pre.map StreamEvent.status ++ StreamEvent.interrupt :: rest) =
      statusRecords pre ∧
    StreamMiner_get_tweets limit
        (pre.map StreamEvent.status ++ StreamEvent.interrupt :: rest) =
      ⟨statusRecords pre, pre.length + 1⟩ := by
  have h : StreamMiner_get_tweets limit
      (pre.map StreamEvent.status ++ StreamEvent.interrupt :: rest) =
      ⟨statusRecords pre, pre.length + 1⟩ := by
    unfold StreamMiner_get_tweets
    rw [streamLoop_textful limit pre _ 0 [] htext (by simpa using hcount)]
    simp [streamLoop, Nat.add_comm]
  exact ⟨by rw [get_tweets, h], h⟩

/-- Witness for C6: interrupt after two records, with an unconsumed
event behind it. -/
theorem stream_interrupt_keeps_records_witness :
    get_tweets (-1)
        ([Status.mk 1 (some ("a")), Status.mk 2 (some ("b"))].map StreamEvent.status ++
          StreamEvent.interrupt :: [StreamEvent.status (Status.mk 3 (some ("c")))]) =
      statusRecords [Status.mk 1 (some ("a")), Status.mk 2 (some ("b"))] :=
  (stream_interrupt_keeps_records (-1)
    [Status.mk 1 (some ("a")), Status.mk 2 (some ("b"))]
    [StreamEvent.status (Status.mk 3 (some ("c")))] (by decide) (by decide)).1

/-- C4 (amended): for positive L, a feed whose first L events all carry
text yields exactly L records (their records, in order) and at most one
event beyond the L-th is consumed — the one whose processing finds
`count == limit`; a non-positive limit is mapped to the sentinel -1, and
with limit -1 the count check never stops collection. The original
claim's "feed containing at least L content-bearing events" is narrowed
to "feed whose first L events are content-bearing", since the collector
stops at the first content-less event. -/
theorem stream_limit_truncates (L : Int) (hL : 0 < L) (pre : List Status)
    (rest : List StreamEvent) (hlen : (pre.length : Int) = L)
    (htext : ∀ s ∈ pre, s.text.isSome = true) :
    (StreamMiner_get_tweets (mkLimit L) (pre.map StreamEvent.status ++ rest)).tweets =
        statusRecords pre ∧
    (statusRecords pre).length = pre.length ∧
    (StreamMiner_get_tweets (mkLimit L) (pre.map StreamEvent.status ++ rest)).consumed ≤
        pre.length + 1 ∧
    (∀ M : Int, M ≤ 0 → mkLimit M = -1) ∧
    (∀ feed : List Status, (∀ s ∈ feed, s.text.isSome = true) →
      StreamMiner_get_tweets (-1) (feed.map StreamEvent.status) =
        ⟨statusRecords feed, feed.length⟩) := by
  have hmk : mkLimit L = L := if_pos hL
  have hc : ∀ i : Nat, i < pre.length → ((0 + i : Nat) : Int) ≠ L := by
    intro i hi
    have hiL : (i : Int) < L := by
      rw [← hlen]; exact_mod_cast hi
    simpa using hiL.ne
  have hmain := streamLoop_textful L pre rest 0 [] htext hc
  simp only [Nat.zero_add, List.nil_append] at hmain
  have hstop : (streamLoop L rest pre.length (statusRecords pre)).tweets =
      statusRecords pre ∧
      (streamLoop L rest pre.length (statusRecords pre)).consumed ≤ 1 := by
    cases rest with
    | nil => simp [streamLoop]
    | cons e rest' =>
      cases e with
      | interrupt => simp [streamLoop]
      | status s =>
        cases hs : s.text with
        | none => simp [streamLoop, hs]
        | some t => simp [streamLoop, hs, hlen]
  refine ⟨?_, statusRecords_length pre htext, ?_, ?_, ?_⟩
  · rw [StreamMiner_get_tweets, hmk, hmain]
    exact hstop.1
  · rw [StreamMiner_get_tweets, hmk, hmain]
    have := hstop.2
    simp only []
    omega
  · intro M hM
    rw [mkLimit, if_neg (by omega)]
  · intro feed hfeed
    have hcf : ∀ i : Nat, i < feed.length → ((0 + i : Nat) : Int) ≠ (-1 : Int) := by
      intro i _
      omega
    have hm := streamLoop_textful (-1) feed [] 0 [] hfeed hcf
    rw [StreamMiner_get_tweets, ← List.append_nil (feed.map StreamEvent.status), hm]
    simp [streamLoop]

/-- Witness for C4: limit 2, two content-bearing events, then a third
event of which at most one is consumed. -/
theorem stream_limit_truncates_witness :
    (StreamMiner_get_tweets (mkLimit 2)
        ([Status.mk 1 (some ("a")), Status.mk 2 (some ("b"))].map StreamEvent.status ++
          [StreamEvent.status (Status.mk 3 (some ("c")))])).tweets =
      statusRecords [Status.mk 1 (some ("a")), Status.mk 2 (some ("b"))] ∧
    (statusRecords [Status.mk 1 (some ("a")), Status.mk 2 (some ("b"))]).length =
      [Status.mk 1 (some ("a")), Status.mk 2 (some ("b"))].length ∧
    (StreamMiner_get_tweets (mkLimit 2)
        ([Status.mk 1 (some ("a")), Status.mk 2 (some ("b"))].map StreamEvent.status ++
          [StreamEvent.status (Status.mk 3 (some ("c")))])).consumed ≤
      [Status.mk 1 (some ("a")), Status.mk 2 (some ("b"))].length + 1 ∧
    (∀ M : Int, M ≤ 0 → mkLimit M = -1) ∧
    (∀ feed : List Status, (∀ s ∈ feed, s.text.isSome = true) →
      StreamMiner_get_tweets (-1) (feed.map StreamEvent.status) =
        ⟨statusRecords feed, feed.length⟩) :=
  stream_limit_truncates 2 (by decide)
    [Status.mk 1 (some ("a")), Status.mk 2 (some ("b"))]
    [StreamEvent.status (Status.mk 3 (some ("c")))] (by decide) (by decide)

/-- C4 counterexample: with limit 1 and the feed consisting of a
content-less event followed by a content-bearing one — a feed containing
at least one content-bearing event — the collector returns 0 records,
not 1: it stops at the first content-less event. -/
theorem stream_limit_claim_counterexample :
    (StreamMiner_get_tweets (mkLimit 1)
        [StreamEvent.status (Status.mk 1 none),
         StreamEvent.status (Status.mk 2 (some ("hi")))]).tweets = [] ∧
    ([Status.mk 1 none, Status.mk 2 (some ("hi"))].countP
        (fun s => s.text.isSome)) = 1 := by
  constructor <;> decide

/-! ### Config and credential loaders (tad_common.py) -/

/-- load_topics (tad_common.py lines 129-141): the argument is the list
of lines of the configuration file, as Python's readlines yields them
(trailing newlines may be present or not; every use below strips).
Blank lines and lines whose first non-whitespace character is `#` are
skipped; a line splitting on `=` into exactly two parts contributes the
stripped left part as topic name and the comma-split, stripped right
part as queries; every other line contributes nothing. -/
def load_topics (lines : List String) : List (String × List String) :=
  lines.foldl
    (fun topic_queries line =>
      if (pyStrip line).length = 0 ∨ (pyStrip line).data.head? = some '#' then
        topic_queries
      else
        match pySplit '=' line with
        | [a, b] => topic_queries ++ [(pyStrip a, (pySplit ',' b).map pyStrip)]
        | _ => topic_queries)
    []

/-- C8 counterexample: on the claimed input the parser does NOT yield
queries with the surrounding single quotes removed — the code only
strips whitespace, so `sports` maps to `('nba', 'nfl')` with the quote
characters kept, not to `(nba, nfl)`. -/
theorem load_topics_claim_counterexample :
    load_topics ["sports = \x27nba\x27, \x27nfl\x27\n", "# comment\n", "\n",
        "music=rock\n"] ≠
      [("sports", ["nba", "nfl"]), ("music", ["rock"])] := by
  decide

/-- C8 (amended): the input yields exactly two topics, sports mapped to
the query tuple `('nba', 'nfl')` — whitespace-trimmed but with the quote
characters of the configuration line preserved — and music mapped to
`(rock,)`; a line with no `=` (badline) or more than one `=` contributes
nothing, and blank or `#`-initial lines are ignored. -/
theorem load_topics_example :
    load_topics ["sports = \x27nba\x27, \x27nfl\x27\n", "# comment\n", "\n",
        "music=rock\n"] =
      [("sports", ["\x27nba\x27", "\x27nfl\x27"]), ("music", ["rock"])] ∧
    load_topics ["sports = \x27nba\x27, \x27nfl\x27\n", "# comment\n", "\n",
        "music=rock\n", "badline\n", "a=b=c\n"] =
      [("sports", ["\x27nba\x27", "\x27nfl\x27"]), ("music", ["rock"])] := by
  constructor <;> decide

/-- The four credential keys load_credentials recognizes. -/
def recognizedKeys : List String :=
  ["consumer_key", "consumer_secret", "oauth_token", "oauth_token_secret"]

/-- Loop body of load_credentials (tad_common.py lines 117-126):
`key, val = credential_line.strip().split(' ')` raises ValueError unless
the split on a single space yields exactly two fields; a recognized key
(compared lowercased) stores its value under the canonical key name,
anything else stores nothing. -/
def credStep (credentials : Dict String) (line : String) : Except PyErr (Dict String) :=
  match pySplit ' ' (pyStrip line) with
  | [key, val] =>
    Except.ok
      (if pyLower key = ("consumer_key") then
        dictInsert credentials ("consumer_key") val
      else if pyLower key = ("consumer_secret") then
        dictInsert credentials ("consumer_secret") val
      else if pyLower key = ("oauth_token") then
        dictInsert credentials ("oauth_token") val
      else if pyLower key = ("oauth_token_secret") then
        dictInsert credentials ("oauth_token_secret") val
      else credentials)
  | _ => Except.error PyErr.valueError

/-- load_credentials (tad_common.py lines 104-127): fold `credStep` over
the file's lines, starting from the empty dict. -/
def load_credentials (lines : List String) : Except PyErr (Dict String) :=
  lines.foldlM credStep []

/-- The value the file determines for recognized key `k`: the value of
the last well-formed line whose lowercased key is `k`. -/
def credValStep (k : String) (acc : Option String) (line : String) : Option String :=
  match pySplit ' ' (pyStrip line) with
  | [key, val] => if pyLower key = k then some val else acc
  | _ => acc

/-- Last-match value for key `k` over the whole file. -/
def credValue (lines : List String) (k : String) : Option String :=
  lines.foldl (credValStep k) none

/-- A fold whose step either overwrites the accumulator with `some` or
keeps it can be split off its initial value. -/
theorem foldl_optOr_init {α β : Type} (S : Option α → β → Option α)
    (hS : ∀ (a : Option α) (x : β), S a x = optOr (S none x) a)
    (l : List β) (a : Option α) :
    l.foldl S a = optOr (l.foldl S none) a := by
  induction l generalizing a with
  | nil => simp [optOr]
  | cons x l ih =>
    simp only [List.foldl_cons]
    rw [ih (S a x), ih (S none x), hS a x, optOr_assoc]

theorem credValStep_init (k : String) (a : Option String) (line : String) :
    credValStep k a line = optOr (credValStep k none line) a := by
  unfold credValStep
  cases h : pySplit ' ' (pyStrip line) with
  | nil => simp [optOr]
  | cons x xs =>
    cases xs with
    | nil => simp [optOr]
    | cons y ys =>
      cases ys with
      | nil => by_cases hk : pyLower x = k <;> simp [hk, optOr]
      | cons z zs => simp [optOr]

/-- One well-formed line: the step succeeds; a recognized key reads back
as the line's value exactly when the lowercased key matches it, and
nothing outside the four recognized keys is ever written. -/
theorem credStep_ok (m0 : Dict String) (line key val : String)
    (hkv : pySplit ' ' (pyStrip line) = [key, val]) :
    ∃ m1, credStep m0 line = Except.ok m1 ∧
      (∀ k, k ∈ recognizedKeys →
        dictLookup m1 k = if pyLower key = k then some val else dictLookup m0 k) ∧
      (∀ k, k ∉ recognizedKeys → dictLookup m1 k = dictLookup m0 k) := by
  by_cases h1 : pyLower key = ("consumer_key")
  · refine ⟨dictInsert m0 ("consumer_key") val, by simp [credStep, hkv, h1], ?_, ?_⟩
    · intro k _
      rw [dictLookup_dictInsert, h1]
    · intro k hk
      have hne : ¬ (("consumer_key" : String) = k) := by
        intro he
        exact hk (he ▸ (by simp [recognizedKeys] : ("consumer_key" : String) ∈ recognizedKeys))
      rw [dictLookup_dictInsert, if_neg hne]
  · by_cases h2 : pyLower key = ("consumer_secret")
    · refine ⟨dictInsert m0 ("consumer_secret") val, by simp [credStep, hkv, h1, h2], ?_, ?_⟩
      · intro k _
        rw [dictLookup_dictInsert, h2]
      · intro k hk
        have hne : ¬ (("consumer_secret" : String) = k) := by
          intro he
          exact hk (he ▸ (by simp [recognizedKeys] :
            ("consumer_secret" : String) ∈ recognizedKeys))
        rw [dictLookup_dictInsert, if_neg hne]
    · by_cases h3 : pyLower key = ("oauth_token")
      · refine ⟨dictInsert m0 ("oauth_token") val, by simp [credStep, hkv, h1, h2, h3], ?_, ?_⟩
        · intro k _
          rw [dictLookup_dictInsert, h3]
        · intro k hk
          have hne : ¬ (("oauth_token" : String) = k) := by
            intro he
            exact hk (he ▸ (by simp [recognizedKeys] :
              ("oauth_token" : String) ∈ recognizedKeys))
          rw [dictLookup_dictInsert, if_neg hne]
      · by_cases h4 : pyLower key = ("oauth_token_secret")
        · refine ⟨dictInsert m0 ("oauth_token_secret") val,
            by simp [credStep, hkv, h1, h2, h3, h4], ?_, ?_⟩
          · intro k _
            rw [dictLookup_dictInsert, h4]
          · intro k hk
            have hne : ¬ (("oauth_token_secret" : String) = k) := by
              intro he
              exact hk (he ▸ (by simp [recognizedKeys] :
                ("oauth_token_secret" : String) ∈ recognizedKeys))
            rw [dictLookup_dictInsert, if_neg hne]
        · refine ⟨m0, by simp [credStep, hkv, h1, h2, h3, h4], ?_, fun k _ => rfl⟩
          intro k hk
          have hne : ¬ pyLower key = k := by
            simp only [recognizedKeys, List.mem_cons, List.not_mem_nil, or_false] at hk
            rcases hk with rfl | rfl | rfl | rfl
            · exact h1
            · exact h2
            · exact h3
            · exact h4
          rw [if_neg hne]

/-- Folding `credStep` from any starting dict over well-formed lines:
recognized keys read back as the last match over the lines, falling back
to the starting dict; other keys are untouched. -/
theorem load_credentials_go (lines : List String) (m0 : Dict String)
    (h : ∀ l ∈ lines, (pySplit ' ' (pyStrip l)).length = 2) :
    ∃ m, List.foldlM credStep m0 lines = Except.ok m ∧
      ∀ k : String, dictLookup m k =
        if k ∈ recognizedKeys then optOr (credValue lines k) (dictLookup m0 k)
        else dictLookup m0 k := by
  induction lines generalizing m0 with
  | nil =>
    refine ⟨m0, rfl, fun k => ?_⟩
    by_cases hk : k ∈ recognizedKeys <;> simp [hk, credValue, optOr]
  | cons l lines ih =>
    obtain ⟨key, val, hkv⟩ := List.length_eq_two.mp (h l (List.mem_cons_self l lines))
    obtain ⟨m1, hm1, hrec, hnrec⟩ := credStep_ok m0 l key val hkv
    obtain ⟨m, hm, hlook⟩ := ih m1 (fun x hx => h x (List.mem_cons_of_mem l hx))
    refine ⟨m, ?_, fun k => ?_⟩
    · rw [List.foldlM_cons, hm1]
      exact hm
    · rw [hlook k]
      by_cases hk : k ∈ recognizedKeys
      · rw [if_pos hk, if_pos hk, hrec k hk]
        have hcv : credValue (l :: lines) k =
            optOr (credValue lines k) (if pyLower key = k then some val else none) := by
          unfold credValue
          rw [List.foldl_cons,
            foldl_optOr_init (credValStep k) (credValStep_init k) lines
              (credValStep k none l)]
          congr 1
          simp [credValStep, hkv]
        rw [hcv, optOr_assoc, optOr_ite_some]
      · rw [if_neg hk, if_neg hk, hnrec k hk]

/-- C9 (amended): for every credentials file each of whose stripped lines
splits on a single space into exactly two fields, load_credentials
returns a mapping in which each recognized key (matched
case-insensitively) that occurs reads back as its (last) value, and no
unrecognized key contributes an entry. -/
theorem load_credentials_spec (lines : List String)
    (h : ∀ l ∈ lines, (pySplit ' ' (pyStrip l)).length = 2) :
    ∃ m, load_credentials lines = Except.ok m ∧
      (∀ k ∈ recognizedKeys, dictLookup m k = credValue lines k) ∧
      (∀ k, k ∉ recognizedKeys → dictLookup m k = none) := by
  obtain ⟨m, hm, hlook⟩ := load_credentials_go lines [] h
  refine ⟨m, hm, fun k hk => ?_, fun k hk => ?_⟩
  · rw [hlook k, if_pos hk]
    simp [dictLookup, optOr_none]
  · rw [hlook k, if_neg hk]
    rfl

/-- Witness for C9 (amended): a mixed-case recognized key, an ignored
unrecognized line, and a second recognized key. -/
theorem load_credentials_spec_witness :
    ∃ m, load_credentials ["Consumer_KEY aaa", "other zzz", "OAUTH_TOKEN ttt"] =
        Except.ok m ∧
      (∀ k ∈ recognizedKeys, dictLookup m k =
        credValue ["Consumer_KEY aaa", "other zzz", "OAUTH_TOKEN ttt"] k) ∧
      (∀ k, k ∉ recognizedKeys → dictLookup m k = none) :=
  load_credentials_spec ["Consumer_KEY aaa", "other zzz", "OAUTH_TOKEN ttt"] (by decide)

/-- C9 counterexample: a tab-separated `key value` line — whitespace-
separated in the claim's sense — makes load_credentials raise ValueError
(the code splits on a single space only), instead of returning a mapping
binding consumer_key. -/
theorem load_credentials_claim_counterexample :
    load_credentials ["consumer_key\tSECRET"] = Except.error PyErr.valueError := by
  rfl

/-! ### Topic miner (ttm.py) -/

instance {ε α : Type} [DecidableEq ε] [DecidableEq α] : DecidableEq (Except ε α) :=
  fun a b =>
    match a, b with
    | Except.ok x, Except.ok y =>
      if h : x = y then isTrue (by rw [h]) else isFalse (by intro hc; cases hc; exact h rfl)
    | Except.error x, Except.error y =>
      if h : x = y then isTrue (by rw [h]) else isFalse (by intro hc; cases hc; exact h rfl)
    | Except.ok _, Except.error _ => isFalse (by intro hc; cases hc)
    | Except.error _, Except.ok _ => isFalse (by intro hc; cases hc)

/-- One response of the search endpoint as TopicMiner._get_tweets reads
it: the decoded `statuses` array, and the continuation cursor
`results['search_metadata']['next_results']` when that key exists. -/
structure SearchResponse : Type where
  statuses : List Status
  next_results : Option String
deriving DecidableEq

/-- A request the topic miner issues: the initial one with query,
language and page size (ttm.py line 101), or a follow-up carrying
exactly the keyword arguments decoded from a cursor (line 113). -/
inductive SearchRequest : Type where
  | initial : String → String → Nat → SearchRequest
  | fromCursor : Dict String → SearchRequest
deriving DecidableEq

/-- A failure of a topic-miner run: either a Python exception propagated
out of the loop, or the mock response oracle ran out while the code
still wanted to issue a request (outside the modelled scenario). -/
inductive MinerFailure : Type where
  | raised : PyErr → MinerFailure
  | oracleExhausted : MinerFailure
deriving DecidableEq

/-- The list comprehension `[Tweet(status) for status in
results['statuses']]` (ttm.py lines 102 and 114): decode in order,
propagating the KeyError of the first status lacking text. -/
def decodeStatuses : List Status → Except PyErr (List Tweet)
  | [] => Except.ok []
  | s :: rest =>
    match Tweet.ofStatus s with
    | Except.error e => Except.error e
    | Except.ok tw =>
      match decodeStatuses rest with
      | Except.error e => Except.error e
      | Except.ok tws => Except.ok (tw :: tws)

/-- Cursor parsing (ttm.py line 112):
`dict([kv.split('=') for kv in next_results[1:].split('&')])` — drop the
first character, split on `&`, split each field on `=`; Python's dict()
raises ValueError unless every field yields exactly two parts. -/
def cursorParams (next_results : String) : Except PyErr (Dict String) :=
  let kvs := (pySplit '&' (pyDrop1 next_results)).map (fun kv => pySplit '=' kv)
  if kvs.all (fun l => l.length == 2) then
    Except.ok (kvs.foldl (fun d l => dictInsert d (l.getD 0 ("")) (l.getD 1 (""))) [])
  else Except.error PyErr.valueError

/-- The records a search response's page determines when every status
decodes. -/
def pageRecords (r : SearchResponse) : List Tweet := statusRecords r.statuses

/-- The `while True` pagination loop of TopicMiner._get_tweets (ttm.py
lines 103-114), driven by a mock oracle: `results` is the response to
the last issued request, `oracle` the responses the API will give to the
following requests in order. Accumulates records and the list of issued
requests; KeyError from decoding and ValueError from cursor parsing
propagate (nothing in the loop catches them). -/
def searchPages (results : SearchResponse) (oracle : List SearchResponse)
    (query_tweets : List Tweet) (reqs : List SearchRequest) :
    Except MinerFailure (List Tweet × List SearchRequest) :=
  match results.next_results with
  | none => Except.ok (query_tweets, reqs)
  | some nr =>
    match cursorParams nr with
    | Except.error e => Except.error (MinerFailure.raised e)
    | Except.ok kwargs =>
      match oracle with
      | [] => Except.error MinerFailure.oracleExhausted
      | r :: rest =>
        match decodeStatuses r.statuses with
        | Except.error e => Except.error (MinerFailure.raised e)
        | Except.ok tws =>
          searchPages r rest (query_tweets ++ tws)
            (reqs ++ [SearchRequest.fromCursor kwargs])

/-- TopicMiner._get_tweets for one query (ttm.py lines 98-115): issue
the initial request (query, LANG, count 100), decode the first page,
then run the pagination loop. -/
def TopicMiner_get_tweets_query (query : String) (oracle : List SearchResponse) :
    Except MinerFailure (List Tweet × List SearchRequest) :=
  match oracle with
  | [] => Except.error MinerFailure.oracleExhausted
  | r :: rest =>
    match decodeStatuses r.statuses with
    | Except.error e => Except.error (MinerFailure.raised e)
    | Except.ok tws => searchPages r rest tws [SearchRequest.initial query LANG 100]

/-- Whether an optional cursor is present and parseable. -/
def parseOk (o : Option String) : Bool :=
  match o with
  | some nr =>
    match cursorParams nr with
    | Except.ok _ => true
    | Except.error _ => false
  | none => false

/-- A well-formed mock chain: every response but the last carries a
parseable continuation cursor, and the last carries none. -/
def chainB : List SearchResponse → Bool
  | [] => true
  | [r] => r.next_results.isNone
  | r :: rest => parseOk r.next_results && chainB rest

theorem decodeStatuses_ok (statuses : List Status)
    (h : ∀ s ∈ statuses, s.text.isSome = true) :
    decodeStatuses statuses = Except.ok (statusRecords statuses) := by
  induction statuses with
  | nil => rfl
  | cons s l ih =>
    obtain ⟨t, ht⟩ := Option.isSome_iff_exists.mp (h s (by simp))
    rw [statusRecords_cons_some s t l ht]
    simp [decodeStatuses, Tweet.ofStatus, ht, ih (fun x hx => h x (by simp [hx]))]

theorem decodeStatuses_error (pre : List Status) (st : Status) (post : List Status)
    (hpre : ∀ s ∈ pre, s.text.isSome = true) (hst : st.text = none) :
    decodeStatuses (pre ++ st :: post) = Except.error PyErr.keyError := by
  induction pre with
  | nil => simp [decodeStatuses, Tweet.ofStatus, hst]
  | cons s l ih =>
    obtain ⟨t, ht⟩ := Option.isSome_iff_exists.mp (hpre s (by simp))
    simp [decodeStatuses, Tweet.ofStatus, ht,
      ih (fun x hx => hpre x (by simp [hx]))]

/-- Equation of `searchPages` when the current response has no cursor:
the loop breaks and returns what it accumulated. -/
theorem searchPages_none (sts : List Status) (oracle : List SearchResponse)
    (query_tweets : List Tweet) (reqs : List SearchRequest) :
    searchPages (SearchResponse.mk sts none) oracle query_tweets reqs =
      Except.ok (query_tweets, reqs) := by
  rw [searchPages.eq_def]

/-- Equation of `searchPages` when the current response carries a
cursor: parse it, issue the next request, decode, and continue. -/
theorem searchPages_some (sts : List Status) (nr : String)
    (oracle : List SearchResponse) (query_tweets : List Tweet)
    (reqs : List SearchRequest) :
    searchPages (SearchResponse.mk sts (some nr)) oracle query_tweets reqs =
      (match cursorParams nr with
       | Except.error e => Except.error (MinerFailure.raised e)
       | Except.ok kwargs =>
         match oracle with
         | [] => Except.error MinerFailure.oracleExhausted
         | r :: rest =>
           match decodeStatuses r.statuses with
           | Except.error e => Except.error (MinerFailure.raised e)
           | Except.ok tws =>
             searchPages r rest (query_tweets ++ tws)
               (reqs ++ [SearchRequest.fromCursor kwargs])) := by
  rw [searchPages.eq_def]

/-- Equation of the per-query entry on a nonempty oracle. -/
theorem get_tweets_query_cons (query : String) (r : SearchResponse)
    (rest : List SearchResponse) :
    TopicMiner_get_tweets_query query (r :: rest) =
      (match decodeStatuses r.statuses with
       | Except.error e => Except.error (MinerFailure.raised e)
       | Except.ok tws =>
         searchPages r rest tws [SearchRequest.initial query LANG 100]) := rfl

/-- Running the pagination loop over a well-formed chain of remaining
responses collects every page's records in order and issues one request
per remaining response. -/
theorem searchPages_chain (rest : List SearchResponse) (cur : SearchResponse)
    (acc : List Tweet) (reqs : List SearchRequest)
    (hchain : chainB (cur :: rest) = true)
    (hdec : ∀ r ∈ rest, ∀ s ∈ r.statuses, s.text.isSome = true) :
    ∃ reqs2 : List SearchRequest,
      searchPages cur rest acc reqs =
        Except.ok (acc ++ (rest.map pageRecords).flatten, reqs ++ reqs2) ∧
      reqs2.length = rest.length := by
  induction rest generalizing cur acc reqs with
  | nil =>
    obtain ⟨sts, nxt⟩ := cur
    have hnone : nxt = none := by
      cases h : nxt with
      | none => rfl
      | some nr =>
        subst h
        rw [show chainB [SearchResponse.mk sts (some nr)] = false from rfl] at hchain
        exact absurd hchain (by simp)
    subst hnone
    refine ⟨[], ?_, rfl⟩
    rw [searchPages_none]
    simp
  | cons r rest ih =>
    obtain ⟨sts, nxt⟩ := cur
    have hchain' : parseOk nxt = true ∧ chainB (r :: rest) = true := by
      rw [show chainB (SearchResponse.mk sts nxt :: r :: rest) =
        (parseOk nxt && chainB (r :: rest)) from rfl] at hchain
      simpa using hchain
    obtain ⟨nr, hnr⟩ : ∃ nr, nxt = some nr := by
      cases h : nxt with
      | none =>
        subst h
        rw [show parseOk none = false from rfl] at hchain'
        exact absurd hchain'.1 (by simp)
      | some nr => exact ⟨nr, rfl⟩
    subst hnr
    obtain ⟨kwargs, hkw⟩ : ∃ kw, cursorParams nr = Except.ok kw := by
      cases h : cursorParams nr with
      | ok kw => exact ⟨kw, rfl⟩
      | error e =>
        have h1 := hchain'.1
        rw [show parseOk (some nr) =
          (match cursorParams nr with
           | Except.ok _ => true
           | Except.error _ => false) from rfl, h] at h1
        exact absurd h1 (by simp)
    have hdecr : decodeStatuses r.statuses = Except.ok (pageRecords r) :=
      decodeStatuses_ok r.statuses (hdec r (by simp))
    obtain ⟨reqs2, hrun, hlen⟩ := ih r (acc ++ pageRecords r)
      (reqs ++ [SearchRequest.fromCursor kwargs]) hchain'.2
      (fun x hx => hdec x (by simp [hx]))
    refine ⟨SearchRequest.fromCursor kwargs :: reqs2, ?_, by simp [hlen]⟩
    rw [searchPages_some]
    simp only [hkw, hdecr]
    rw [hrun]
    simp [List.append_assoc]

/-- C2: given a nonempty finite chain of mock responses in which every
response but the last carries a (parseable) continuation cursor, the
last carries none, and every status carries text, the paginated search
collector terminates with exactly one issued request per response and
returns the concatenation of every page's decoded records in arrival
order, duplicates retained. -/
theorem pagination_terminates (query : String) (oracle : List SearchResponse)
    (hne : oracle ≠ [])
    (hchain : chainB oracle = true)
    (hdec : ∀ r ∈ oracle, ∀ s ∈ r.statuses, s.text.isSome = true) :
    ∃ reqs : List SearchRequest,
      TopicMiner_get_tweets_query query oracle =
        Except.ok ((oracle.map pageRecords).flatten, reqs) ∧
      reqs.length = oracle.length := by
  cases oracle with
  | nil => exact absurd rfl hne
  | cons r rest =>
    have hdecr : decodeStatuses r.statuses = Except.ok (pageRecords r) :=
      decodeStatuses_ok r.statuses (hdec r (by simp))
    obtain ⟨reqs2, hrun, hlen⟩ := searchPages_chain rest r (pageRecords r)
      [SearchRequest.initial query LANG 100] hchain
      (fun x hx => hdec x (by simp [hx]))
    refine ⟨SearchRequest.initial query LANG 100 :: reqs2, ?_, by simp [hlen]⟩
    rw [get_tweets_query_cons]
    simp only [hdecr]
    rw [hrun]
    simp

/-- Witness for C2: a two-page chain; two requests are issued and both
pages' records returned in order. -/
theorem pagination_terminates_witness :
    ∃ reqs : List SearchRequest,
      TopicMiner_get_tweets_query ("ncaa")
          [SearchResponse.mk [Status.mk 10 (some ("x"))]
            (some ("?max_id=9&q=ncaa")),
           SearchResponse.mk [Status.mk 11 (some ("y"))] none] =
        Except.ok
          (([SearchResponse.mk [Status.mk 10 (some ("x"))]
              (some ("?max_id=9&q=ncaa")),
             SearchResponse.mk [Status.mk 11 (some ("y"))] none].map
            pageRecords).flatten, reqs) ∧
      reqs.length =
        [SearchResponse.mk [Status.mk 10 (some ("x"))]
          (some ("?max_id=9&q=ncaa")),
         SearchResponse.mk [Status.mk 11 (some ("y"))] none].length :=
  pagination_terminates ("ncaa")
    [SearchResponse.mk [Status.mk 10 (some ("x"))] (some ("?max_id=9&q=ncaa")),
     SearchResponse.mk [Status.mk 11 (some ("y"))] none]
    (by decide) (by decide) (by decide)

/-- C3: decoding a continuation cursor drops the first character, splits
on `&`, splits each field on `=`, and the next request carries exactly
the resulting parameter mapping and nothing else; on the example cursor
the mapping is exactly max_id 123, q NCAA, include_entities 1. -/
theorem cursor_parsing (query : String) (r0 r1 : SearchResponse)
    (h0 : r0.next_results = some ("?max_id=123&q=NCAA&include_entities=1"))
    (h1 : r1.next_results = none)
    (hd0 : ∀ s ∈ r0.statuses, s.text.isSome = true)
    (hd1 : ∀ s ∈ r1.statuses, s.text.isSome = true) :
    cursorParams ("?max_id=123&q=NCAA&include_entities=1") =
      Except.ok [("max_id", "123"), ("q", "NCAA"), ("include_entities", "1")] ∧
    TopicMiner_get_tweets_query query [r0, r1] =
      Except.ok (pageRecords r0 ++ pageRecords r1,
        [SearchRequest.initial query LANG 100,
         SearchRequest.fromCursor
           [("max_id", "123"), ("q", "NCAA"), ("include_entities", "1")]]) := by
  have hcp : cursorParams ("?max_id=123&q=NCAA&include_entities=1") =
      Except.ok [("max_id", "123"), ("q", "NCAA"), ("include_entities", "1")] := by
    decide
  refine ⟨hcp, ?_⟩
  obtain ⟨s0, n0⟩ := r0
  obtain ⟨s1, n1⟩ := r1
  have h0' : n0 = some ("?max_id=123&q=NCAA&include_entities=1") := h0
  have h1' : n1 = none := h1
  subst h0'
  subst h1'
  have hd0' : decodeStatuses s0 = Except.ok (statusRecords s0) :=
    decodeStatuses_ok s0 hd0
  have hd1' : decodeStatuses s1 = Except.ok (statusRecords s1) :=
    decodeStatuses_ok s1 hd1
  rw [get_tweets_query_cons]
  simp only [hd0']
  rw [searchPages_some]
  simp only [hcp, hd1']
  rw [searchPages_none]
  simp [pageRecords]

/-- Witness for C3: concrete one-status pages around the example
cursor. -/
theorem cursor_parsing_witness :
    cursorParams ("?max_id=123&q=NCAA&include_entities=1") =
      Except.ok [("max_id", "123"), ("q", "NCAA"), ("include_entities", "1")] ∧
    TopicMiner_get_tweets_query ("NCAA")
        [SearchResponse.mk [Status.mk 20 (some ("u"))]
          (some ("?max_id=123&q=NCAA&include_entities=1")),
         SearchResponse.mk [Status.mk 21 (some ("v"))] none] =
      Except.ok
        (pageRecords (SearchResponse.mk [Status.mk 20 (some ("u"))]
            (some ("?max_id=123&q=NCAA&include_entities=1"))) ++
          pageRecords (SearchResponse.mk [Status.mk 21 (some ("v"))] none),
         [SearchRequest.initial ("NCAA") LANG 100,
          SearchRequest.fromCursor
            [("max_id", "123"), ("q", "NCAA"), ("include_entities", "1")]]) :=
  cursor_parsing ("NCAA")
    (SearchResponse.mk [Status.mk 20 (some ("u"))]
      (some ("?max_id=123&q=NCAA&include_entities=1")))
    (SearchResponse.mk [Status.mk 21 (some ("v"))] none)
    rfl rfl (by decide) (by decide)

/-- C7 counterexample: in the paginated search collector a response item
lacking `text` is not skipped — Tweet() raises KeyError, which nothing
catches, so the whole query's collection fails rather than excluding the
item and continuing. -/
theorem textless_claim_counterexample :
    TopicMiner_get_tweets_query ("q")
        [SearchResponse.mk [Status.mk 7 none] none] =
      Except.error (MinerFailure.raised PyErr.keyError) := by
  decide

/-- C7 (amended): decoding an item lacking `text` fails with KeyError and
the item never contributes a record; the streaming collector checks for
text first and excludes the item but thereby ends its collection (no
error, nothing consumed afterwards), while the paginated search
collector propagates the KeyError as a failure of the whole page
decode. -/
theorem textless_handling (st : Status) (hst : st.text = none)
    (pre post : List Status) (hpre : ∀ s ∈ pre, s.text.isSome = true)
    (limit : Int) (hcount : ∀ i : Nat, i < pre.length → ((i : Nat) : Int) ≠ limit)
    (rest : List StreamEvent) :
    Tweet.ofStatus st = Except.error PyErr.keyError ∧
    decodeStatuses (pre ++ st :: post) = Except.error PyErr.keyError ∧
    StreamMiner_get_tweets limit
        (pre.map StreamEvent.status ++ StreamEvent.status st :: rest) =
      ⟨statusRecords pre, pre.length + 1⟩ := by
  refine ⟨by simp [Tweet.ofStatus, hst],
    decodeStatuses_error pre st post hpre hst, ?_⟩
  unfold StreamMiner_get_tweets
  rw [streamLoop_textful limit pre _ 0 [] hpre (by simpa using hcount)]
  simp [streamLoop, hst, Nat.add_comm]

/-- Witness for C7 (amended): a concrete content-less status between
content-bearing ones. -/
theorem textless_handling_witness :
    Tweet.ofStatus (Status.mk 7 none) = Except.error PyErr.keyError ∧
    decodeStatuses ([Status.mk 1 (some ("a"))] ++ Status.mk 7 none ::
        [Status.mk 2 (some ("b"))]) = Except.error PyErr.keyError ∧
    StreamMiner_get_tweets 9
        ([Status.mk 1 (some ("a"))].map StreamEvent.status ++
          StreamEvent.status (Status.mk 7 none) ::
            [StreamEvent.status (Status.mk 2 (some ("b")))]) =
      ⟨statusRecords [Status.mk 1 (some ("a"))],
        [Status.mk 1 (some ("a"))].length + 1⟩ :=
  textless_handling (Status.mk 7 none) rfl [Status.mk 1 (some ("a"))]
    [Status.mk 2 (some ("b"))] (by decide) 9 (by decide)
    [StreamEvent.status (Status.mk 2 (some ("b")))]

/-! ### Object-level model of _tweets_to_dict (frame property) -/

/-- Allocate a fresh dict object on a heap of dict objects (references
are indices), returning the new heap and the fresh reference. -/
def heapAlloc (heap : List (Dict TweetEntry)) (d : Dict TweetEntry) :
    List (Dict TweetEntry) × Nat :=
  (heap ++ [d], heap.length)

/-- Overwrite the object a reference points to. -/
def heapSet (heap : List (Dict TweetEntry)) (ref : Nat) (d : Dict TweetEntry) :
    List (Dict TweetEntry) :=
  heap.set ref d

/-- Read the object a reference points to. -/
def heapGet (heap : List (Dict TweetEntry)) (ref : Nat) : Dict TweetEntry :=
  heap.getD ref []

/-- JSONStorage._tweets_to_dict (tad_common.py lines 72-82) at the level
of Python objects: `merged_tweets_dict = prev_tweets_dict.copy()`
allocates a fresh object holding the same entries, `tweets_dict = dict()`
allocates an empty one, the loop writes each tweet into the tweets_dict
object, and `merged_tweets_dict.update(tweets_dict)` writes into the
merged object. Returns the final heap and the reference the method
returns. -/
def tweets_to_dict_heap (heap : List (Dict TweetEntry)) (prevRef : Nat)
    (tweets : List Tweet) : List (Dict TweetEntry) × Nat :=
  let h1 := heapAlloc heap (heapGet heap prevRef)
  let mergedRef := h1.2
  let h2 := heapAlloc h1.1 []
  let tdRef := h2.2
  let h3 := tweets.foldl
    (fun h twt => heapSet h tdRef
      (dictInsert (heapGet h tdRef) twt.identifier ⟨twt.text⟩)) h2.1
  let h4 := heapSet h3 mergedRef
    (dictUpdate (heapGet h3 mergedRef) (heapGet h3 tdRef))
  (h4, mergedRef)

theorem heapGet_append (base : List (Dict TweetEntry)) (x : Dict TweetEntry)
    (xs : List (Dict TweetEntry)) : heapGet (base ++ x :: xs) base.length = x := by
  induction base with
  | nil => rfl
  | cons b bs ih => exact ih

theorem heapSet_append (base : List (Dict TweetEntry)) (x v : Dict TweetEntry)
    (xs : List (Dict TweetEntry)) :
    heapSet (base ++ x :: xs) base.length v = base ++ v :: xs := by
  induction base with
  | nil => rfl
  | cons b bs ih => exact congrArg (List.cons b) ih

/-- The loop of _tweets_to_dict only ever writes the freshly allocated
tweets_dict cell, which sits past the end of `base`. -/
theorem foldl_heapSet_last (base : List (Dict TweetEntry)) (tweets : List Tweet)
    (d : Dict TweetEntry) :
    tweets.foldl
        (fun h twt => heapSet h base.length
          (dictInsert (heapGet h base.length) twt.identifier ⟨twt.text⟩))
        (base ++ [d]) =
      base ++
        [tweets.foldl (fun acc twt => dictInsert acc twt.identifier ⟨twt.text⟩) d] := by
  induction tweets generalizing d with
  | nil => rfl
  | cons t ts ih =>
    simp only [List.foldl_cons]
    rw [heapGet_append base d [], heapSet_append base d _ []]
    exact ih (dictInsert d t.identifier ⟨t.text⟩)

theorem get_ofAppend_lt {α : Type} (l1 l2 : List α) (i : Nat) (h : i < l1.length) :
    (l1 ++ l2).get? i = l1.get? i := by
  induction l1 generalizing i with
  | nil => exact absurd h (by simp)
  | cons a l ih =>
    cases i with
    | zero => rfl
    | succ n => exact ih n (by simpa using h)

/-- C10: _tweets_to_dict performs the merge on a copy: the object the
previously-loaded mapping reference points to is unchanged by the call,
and the returned object holds exactly the merged mapping. -/
theorem tweets_to_dict_no_mutation (heap : List (Dict TweetEntry)) (prevRef : Nat)
    (tweets : List Tweet) (h : prevRef < heap.length) :
    (tweets_to_dict_heap heap prevRef tweets).1.get? prevRef = heap.get? prevRef ∧
    heapGet (tweets_to_dict_heap heap prevRef tweets).1
        (tweets_to_dict_heap heap prevRef tweets).2 =
      tweets_to_dict tweets (heapGet heap prevRef) := by
  have hmain : tweets_to_dict_heap heap prevRef tweets =
      (heap ++ dictUpdate (heapGet heap prevRef)
          (tweets.foldl (fun acc twt => dictInsert acc twt.identifier ⟨twt.text⟩) []) ::
        [tweets.foldl (fun acc twt => dictInsert acc twt.identifier ⟨twt.text⟩) []],
       heap.length) := by
    simp only [tweets_to_dict_heap, heapAlloc]
    rw [foldl_heapSet_last (heap ++ [heapGet heap prevRef]) tweets []]
    rw [heapGet_append (heap ++ [heapGet heap prevRef]) _ []]
    rw [List.append_assoc, List.singleton_append]
    rw [heapGet_append heap]
    rw [heapSet_append heap]
  refine ⟨?_, ?_⟩
  · rw [hmain]
    exact get_ofAppend_lt heap _ prevRef h
  · rw [hmain]
    rw [show (heap ++ dictUpdate (heapGet heap prevRef)
          (tweets.foldl (fun acc twt => dictInsert acc twt.identifier ⟨twt.text⟩) []) ::
        [tweets.foldl (fun acc twt => dictInsert acc twt.identifier ⟨twt.text⟩) []],
       heap.length).2 = heap.length from rfl]
    rw [heapGet_append heap]
    rfl

/-- Witness for C10 at a concrete heap, reference and batch. -/
theorem tweets_to_dict_no_mutation_witness :
    (tweets_to_dict_heap [[(("1"), ⟨("old")⟩)]] 0 [Tweet.mk ("2") ("b")]).1.get? 0 =
      [[(("1"), ⟨("old")⟩)]].get? 0 ∧
    heapGet (tweets_to_dict_heap [[(("1"), ⟨("old")⟩)]] 0 [Tweet.mk ("2") ("b")]).1
        (tweets_to_dict_heap [[(("1"), ⟨("old")⟩)]] 0 [Tweet.mk ("2") ("b")]).2 =
      tweets_to_dict [Tweet.mk ("2") ("b")] (heapGet [[(("1"), ⟨("old")⟩)]] 0) :=
  tweets_to_dict_no_mutation [[(("1"), ⟨("old")⟩)]] 0 [Tweet.mk ("2") ("b")]
    (by decide)

end TAD
